import Mathlib

/-!
Verification of the Grad-CAM clinical visualization pipeline of the
oftalmolaser backend (apps/pacientes/prediction.py and
apps/pacientes/gradcam_medical_enhanced.py).

Shallow embedding conventions:
* pixels are points of `ℤ × ℤ`; images/heatmaps are functions `ℤ × ℤ → ℝ`
  (NumPy float arrays idealised over the reals);
* `cv2.GaussianBlur` with an odd kernel of size `2k+1` is modelled by an
  abstract separable kernel (`BlurKernel k`): strictly positive weights on
  the support, zero outside, summing to 1 — properties the OpenCV Gaussian
  kernel has for every sigma.  Border effects are irrelevant here because
  every claim is about pixels whose whole kernel support is interior;
* `uint8` arrays are functions `ℤ × ℤ → ℕ` with values ≤ 255;
  `astype(np.uint8)` of a nonnegative float is `⌊x⌋` (C truncation);
* `cv2.resize` is modelled as an arbitrary linear combination of source
  pixels (weights left abstract), which is all the claims about it use;
* percentile normalisation (pure rational arithmetic in the source) is
  embedded computably over `ℚ`.
-/

/-- A pixel coordinate `(x, y)`. -/
abbrev Pix := ℤ × ℤ

/-- Squared Euclidean distance between two pixels (integer arithmetic). -/
def sqDist (p c : Pix) : ℤ :=
  (p.1 - c.1) ^ 2 + (p.2 - c.2) ^ 2

/-- Source `np.sqrt((x-cx)**2 + (y-cy)**2)`: the Euclidean distance as a real. -/
noncomputable def distR (p c : Pix) : ℝ :=
  Real.sqrt ((sqDist p c : ℤ) : ℝ)

/-- Abstract separable smoothing kernel of radius `k` (window `2k+1`):
the model of the 1-D kernel produced by `cv2.getGaussianKernel`.  Weights
are strictly positive on the support, vanish outside it and sum to 1. -/
structure BlurKernel (k : ℕ) where
  g : ℤ → ℝ
  pos : ∀ d : ℤ, d.natAbs ≤ k → 0 < g d
  supp : ∀ d : ℤ, k < d.natAbs → g d = 0
  sumOne : ∑ d in Finset.Icc (-(k : ℤ)) k, g d = 1

/-- The kernel support square, `{-k..k} × {-k..k}`. -/
def kerBox (k : ℕ) : Finset (ℤ × ℤ) :=
  Finset.Icc (-(k : ℤ)) k ×ˢ Finset.Icc (-(k : ℤ)) k

/-- Model of `cv2.GaussianBlur(f, (2k+1, 2k+1), σ)` at an interior pixel:
separable 2-D correlation with the kernel. -/
noncomputable def blur2 {k : ℕ} (K : BlurKernel k) (f : Pix → ℝ) : Pix → ℝ :=
  fun p => ∑ d in kerBox k, K.g d.1 * K.g d.2 * f (p.1 + d.1, p.2 + d.2)

/-- Binomial weights 1,2,1 / 4: a radius-1 discrete Gaussian
(`cv2.GaussianBlur` with ksize 3). -/
noncomputable def g3 (d : ℤ) : ℝ :=
  if d = 0 then 2/4 else if d = -1 ∨ d = 1 then 1/4 else 0

/-- Binomial weights 1,4,6,4,1 / 16: a radius-2 discrete Gaussian
(`cv2.GaussianBlur` with ksize 5). -/
noncomputable def g5 (d : ℤ) : ℝ :=
  if d = 0 then 6/16 else if d = -1 ∨ d = 1 then 4/16
  else if d = -2 ∨ d = 2 then 1/16 else 0

/-- Binomial weights 1,6,15,20,15,6,1 / 64: a radius-3 discrete Gaussian
(`cv2.GaussianBlur` with ksize 7). -/
noncomputable def g7 (d : ℤ) : ℝ :=
  if d = 0 then 20/64 else if d = -1 ∨ d = 1 then 15/64
  else if d = -2 ∨ d = 2 then 6/64
  else if d = -3 ∨ d = 3 then 1/64 else 0

/-- A concrete radius-1 Gaussian-shaped kernel. -/
noncomputable def K3 : BlurKernel 1 where
  g := g3
  pos := by
    intro d hd
    have : d = -1 ∨ d = 0 ∨ d = 1 := by omega
    rcases this with h | h | h <;> subst h <;> simp [g3]
  supp := by
    intro d hd
    have h1 : ¬d = 0 := by omega
    have h2 : ¬(d = -1 ∨ d = 1) := by omega
    simp [g3, h1, h2]
  sumOne := by
    show ∑ d in Finset.Icc (-(1 : ℤ)) 1, g3 d = 1
    have h : Finset.Icc (-(1 : ℤ)) 1 = {-1, 0, 1} := by decide
    rw [h]
    simp [g3]
    norm_num

/-- A concrete radius-2 Gaussian-shaped kernel. -/
noncomputable def K5 : BlurKernel 2 where
  g := g5
  pos := by
    intro d hd
    have : d = -2 ∨ d = -1 ∨ d = 0 ∨ d = 1 ∨ d = 2 := by omega
    rcases this with h | h | h | h | h <;> subst h <;> simp [g5]
  supp := by
    intro d hd
    have h1 : ¬d = 0 := by omega
    have h2 : ¬(d = -1 ∨ d = 1) := by omega
    have h3 : ¬(d = -2 ∨ d = 2) := by omega
    simp [g5, h1, h2, h3]
  sumOne := by
    show ∑ d in Finset.Icc (-(2 : ℤ)) 2, g5 d = 1
    have h : Finset.Icc (-(2 : ℤ)) 2 = {-2, -1, 0, 1, 2} := by decide
    rw [h]
    simp [g5]
    norm_num

/-- A concrete radius-3 Gaussian-shaped kernel. -/
noncomputable def K7 : BlurKernel 3 where
  g := g7
  pos := by
    intro d hd
    have : d = -3 ∨ d = -2 ∨ d = -1 ∨ d = 0 ∨ d = 1 ∨ d = 2 ∨ d = 3 := by
      omega
    rcases this with h | h | h | h | h | h | h <;> subst h <;>
      simp [g7]
  supp := by
    intro d hd
    have h1 : ¬d = 0 := by omega
    have h2 : ¬(d = -1 ∨ d = 1) := by omega
    have h3 : ¬(d = -2 ∨ d = 2) := by omega
    have h4 : ¬(d = -3 ∨ d = 3) := by omega
    simp [g7, h1, h2, h3, h4]
  sumOne := by
    show ∑ d in Finset.Icc (-(3 : ℤ)) 3, g7 d = 1
    have h : Finset.Icc (-(3 : ℤ)) 3 = {-3, -2, -1, 0, 1, 2, 3} := by decide
    rw [h]
    simp [g7]
    norm_num

/-!  ## Anatomical masks  -/

/-- Source `apply_clinical_retinal_mask` (prediction.py 1202-1246), raw mask before
its extra Gaussian blur.  Fixed centre `(w//2, h//2)` (offset 0), outer
radius `int(min(w,h)*0.42)`, feather band `(radius_outer - feather,
radius_outer]` with linear opacity, zero beyond `radius_outer`. -/
noncomputable def clinicalMaskRaw (w h feather : ℤ) : Pix → ℝ :=
  fun p =>
    let c : Pix := (w / 2, h / 2)
    let rOuter : ℤ := 21 * min w h / 50
    let rInner : ℤ := rOuter - feather
    if distR p c > (rOuter : ℝ) then 0
    else if distR p c > (rInner : ℝ) then
      1 - (distR p c - (rInner : ℝ)) / (feather : ℝ)
    else 1

/-- The clinical mask after the extra `cv2.GaussianBlur(mask, (5,5), 1.5)`
(prediction.py 1246), for an arbitrary radius-2 Gaussian kernel. -/
noncomputable def clinicalMask (K : BlurKernel 2) (w h feather : ℤ) : Pix → ℝ :=
  blur2 K (clinicalMaskRaw w h feather)

/-- Source `MedicalGradCAMEnhancer._create_retina_mask` (gradcam_medical_enhanced.py
266-284), raw mask: full opacity for distance ≤ `max 0 (radius - 20)`, zero
for distance ≥ `radius + 20`, linear in between (`np.where` cascade). -/
noncomputable def enhancedMaskRaw (c : Pix) (radius : ℤ) : Pix → ℝ :=
  fun p =>
    let inner : ℤ := max 0 (radius - 20)
    let outer : ℤ := radius + 20
    if distR p c ≤ (inner : ℝ) then 1
    else if distR p c ≥ (outer : ℝ) then 0
    else 1 - (distR p c - (inner : ℝ)) / ((outer : ℝ) - (inner : ℝ))

/-- The enhanced-module mask after `cv2.GaussianBlur(mask, (7,7), 2.5)`
(gradcam_medical_enhanced.py 287). -/
noncomputable def enhancedMask (K : BlurKernel 3) (c : Pix) (radius : ℤ) :
    Pix → ℝ :=
  blur2 K (enhancedMaskRaw c radius)

/-- Source `_apply_retina_mask` / `heatmap * mask`: elementwise product. -/
noncomputable def applyRetinaMask (heatmap mask : Pix → ℝ) : Pix → ℝ :=
  fun p => heatmap p * mask p

/-!  ## Clinical denoise / threshold / morphology tail  -/

/-- Source `heatmap_uint8 / 255.0`. -/
noncomputable def u8ToReal (n : ℕ) : ℝ := (n : ℝ) / 255

/-- Source `(x * 255).astype(np.uint8)` for a nonnegative float `x`. -/
noncomputable def realToU8 (x : ℝ) : ℕ := (⌊x * 255⌋).toNat

/-- Source `np.where(h < t, 0, h)`: the clinical sensitivity threshold
(prediction.py 1178, threshold 0.015). -/
noncomputable def thresholdStep (t x : ℝ) : ℝ := if x < t then 0 else x

/-- The 2×2 all-ones structuring element of
`cv2.getStructuringElement(cv2.MORPH_ELLIPSE, (2,2))`, as offsets. -/
def se2 : Finset (ℤ × ℤ) := {(0, 0), (0, 1), (1, 0), (1, 1)}

/-- Grayscale erosion with structuring element `se` (minimum filter). -/
def erodeN (se : Finset (ℤ × ℤ)) (hse : se.Nonempty) (f : Pix → ℕ) :
    Pix → ℕ :=
  fun p => se.inf' hse fun d => f (p.1 + d.1, p.2 + d.2)

/-- Grayscale dilation with the reflected structuring element
(maximum filter). -/
def dilateN (se : Finset (ℤ × ℤ)) (hse : se.Nonempty) (f : Pix → ℕ) :
    Pix → ℕ :=
  fun p => se.sup' hse fun d => f (p.1 - d.1, p.2 - d.2)

/-- Model of `cv2.morphologyEx(·, cv2.MORPH_OPEN, se)`: erosion then dilation. -/
def openingN (se : Finset (ℤ × ℤ)) (hse : se.Nonempty) (f : Pix → ℕ) :
    Pix → ℕ :=
  dilateN se hse (erodeN se hse f)

/-- PASO 4-5 of the clinical path (prediction.py 1176-1188): threshold at
0.015, convert to uint8, light morphological opening with the 2×2 elliptical
element, back to float.  Input is the bilateral-filter output, a uint8 array
scaled to [0,1]. -/
noncomputable def clinicalDenoise (v : Pix → ℝ) : Pix → ℝ :=
  fun p =>
    u8ToReal (openingN se2 (by decide) (fun q => realToU8 (thresholdStep (15/1000) (v q))) p)

/-- The clinical `ProcessedSaliencyMap` tail (prediction.py 1162-1193):
the bilateral filter output (modelled as an arbitrary uint8 image `b`,
since `cv2.bilateralFilter` on uint8 input returns uint8), rescaled to
[0,1], thresholded, opened, then multiplied by the feathered circular mask
(512×512 geometry, 20 px feather). -/
noncomputable def clinicalProcessed (b : Pix → ℕ) (K : BlurKernel 2) :
    Pix → ℝ :=
  applyRetinaMask (clinicalDenoise (fun q => u8ToReal (b q)))
    (clinicalMask K 512 512 20)

/-!  ## Alpha channel and overlay composition  -/

/-- Transparent-export alpha channel before its smoothing blur
(prediction.py 611-623): zero below the 2 % threshold, else
`clip(alpha_max * (h - thr) / (1 - thr), 0, alpha_max)` with
`alpha_max = 0.85`. -/
noncomputable def alphaPre (hp : Pix → ℝ) : Pix → ℝ :=
  fun p =>
    if hp p > 2/100 then
      min (85/100) (max 0 ((85/100) * (hp p - 2/100) / (1 - 2/100)))
    else 0

/-- Alpha channel after `cv2.GaussianBlur(alpha, (3,3), 0.8)`
(prediction.py 626). -/
noncomputable def alphaChannel (K : BlurKernel 1) (hp : Pix → ℝ) : Pix → ℝ :=
  blur2 K (alphaPre hp)

/-- Flattened clinical overlay, one channel of one pixel
(prediction.py 645-662): constant blend `alpha_overlay = 0.35` where the
processed saliency exceeds the 2 % threshold, untouched original elsewhere,
then `np.clip(·, 0, 255)` over the whole array. -/
noncomputable def clinicalOverlayPix (orig heat hp : ℝ) : ℝ :=
  min 255 (max 0 (if hp > 2/100 then (35/100) * heat + (1 - 35/100) * orig else orig))

/-- Modelled from the spec: the flattened-overlay formula the claim states,
`result = (1-blend)·original + blend·colorRGB` with
`blend = alpha_overlay × saliency_value` where saliency exceeds the
threshold, the original unchanged elsewhere. -/
noncomputable def specOverlayPix (orig heat hp thr : ℝ) : ℝ :=
  if hp > thr then
    min 255 (max 0 ((1 - (35/100) * hp) * orig + (35/100) * hp * heat))
  else orig

/-- Source `_create_overlays` RGB overlay, one channel of one pixel
(gradcam_medical_enhanced.py 369-376): per-pixel blend
`heatmap_intensity * mask`, original and heat in [0,1] scale, result
`np.clip(rgb*255, 0, 255)`. -/
noncomputable def enhancedOverlayPix (orig01 heat01 hp mask : ℝ) : ℝ :=
  min 255 (max 0 (((1 - hp * mask * (35/100)) * orig01 + hp * mask * (35/100) * heat01) * 255))

/-!  ## Resize, saliency-extractor finale  -/

/-- Model of `cv2.resize` / PIL resize as a linear combination of source
pixels over the source grid `g`, with abstract interpolation weights `W`
(covers nearest, bilinear, bicubic and Lanczos, which are all linear in
the image). -/
noncomputable def resizeLin (W : Pix → Pix → ℝ) (g : Finset Pix)
    (f : Pix → ℝ) : Pix → ℝ :=
  fun p => ∑ q in g, W p q * f q

/-- Source `np.maximum(heatmap, 0)` (prediction.py 1130). -/
noncomputable def reluMap (f : Pix → ℝ) : Pix → ℝ := fun p => max (f p) 0

/-- GradCAM++ finale (prediction.py 1130-1138): rectify, take the array
maximum over the native grid `g`; if it is exactly 0 return the all-zero
map, otherwise divide by it. -/
noncomputable def gradcamFinalize (g : Finset Pix) (hg : g.Nonempty)
    (f : Pix → ℝ) : Pix → ℝ :=
  let m := g.sup' hg (reluMap f)
  if m = 0 then fun _ => 0 else fun p => reluMap f p / m

/-!  ## Percentile normalisation (computable, over ℚ)  -/

/-- Insert into a sorted list (ascending). -/
def insertAsc (x : ℚ) : List ℚ → List ℚ
  | [] => [x]
  | y :: ys => if x ≤ y then x :: y :: ys else y :: insertAsc x ys

/-- Insertion sort, ascending: the sort underlying `np.percentile`. -/
def sortAsc : List ℚ → List ℚ
  | [] => []
  | x :: xs => insertAsc x (sortAsc xs)

/-- Model of `np.percentile(xs, q)` with the default linear interpolation:
virtual index `k = (n-1)·q/100`, result
`sorted[⌊k⌋] + (k - ⌊k⌋)·(sorted[⌊k⌋+1] - sorted[⌊k⌋])`. -/
def npPercentile (xs : List ℚ) (q : ℚ) : ℚ :=
  let s := sortAsc xs
  let n := s.length
  if n = 0 then 0
  else
    let k : ℚ := ((n : ℚ) - 1) * q / 100
    let i : ℕ := (⌊k⌋).toNat
    let lo := s.getD i 0
    let hi := s.getD (i + 1) lo
    lo + (k - (⌊k⌋ : ℚ)) * (hi - lo)

/-- Source `np.clip(x, lo, hi)`. -/
def clipQ (lo hi x : ℚ) : ℚ := min hi (max lo x)

/-- Source `MedicalGradCAMEnhancer._robust_normalize` (gradcam_medical_enhanced.py
150-185): percentiles over values above 1e-6 when any exist (else over all
values), degenerate `p_high ≤ p_low` replaced by `p_low + 1e-8`, clip and
rescale linearly. -/
def robustNormalize (xs : List ℚ) (pLow pHigh : ℚ) : List ℚ :=
  let valid := xs.filter (fun x => x > 1/1000000)
  let base := if valid.isEmpty then xs else valid
  let pLowVal := npPercentile base pLow
  let pHighVal0 := npPercentile base pHigh
  let pHighVal := if pHighVal0 ≤ pLowVal then pLowVal + 1/100000000 else pHighVal0
  xs.map fun x => (clipQ pLowVal pHighVal x - pLowVal) / (pHighVal - pLowVal)

/-- The effective normalisation denominator `p_high_val - p_low_val` of
`_robust_normalize` after its degenerate-case adjustment. -/
def robustDenom (xs : List ℚ) (pLow pHigh : ℚ) : ℚ :=
  let valid := xs.filter (fun x => x > 1/1000000)
  let base := if valid.isEmpty then xs else valid
  let pLowVal := npPercentile base pLow
  let pHighVal0 := npPercentile base pHigh
  let pHighVal := if pHighVal0 ≤ pLowVal then pLowVal + 1/100000000 else pHighVal0
  pHighVal - pLowVal

/-- The inline percentile normalisation of the clinical path
(prediction.py 1150-1158): percentiles 0.5 / 99.5 over ALL values; if
`p99_5 > p0_5` clip-rescale to [0,1], otherwise return the array
unchanged. -/
def inlineNormalize (xs : List ℚ) : List ℚ :=
  let p05 := npPercentile xs (1/2)
  let p995 := npPercentile xs (995/10)
  if p995 > p05 then xs.map fun x => clipQ 0 1 ((x - p05) / (p995 - p05))
  else xs

/-!  ## Clinical colormap dispatch  -/

/-- The colormap objects the two dispatchers can return. -/
inductive Cmap where
  /-- `plt.cm.inferno` -/
  | inferno
  /-- the 7-stop `jet_medical` LinearSegmentedColormap (prediction.py 379-388) -/
  | jetMedical
  /-- `plt.cm.viridis` -/
  | viridis
  /-- the 6-stop `medical_jet` LinearSegmentedColormap (gradcam_medical_enhanced.py 327-335) -/
  | medicalJet
  deriving DecidableEq, Repr

/-- Source `create_medical_colormap` (prediction.py 363-396): named dispatch with a
final `else` falling back to inferno. -/
def createMedicalColormap (colormapType : String) : Cmap :=
  if colormapType = "inferno" then .inferno
  else if colormapType = "jet_medical" then .jetMedical
  else if colormapType = "viridis_medical" then .viridis
  else .inferno

/-- Source `MedicalGradCAMEnhancer._get_clinical_colormap`
(gradcam_medical_enhanced.py 321-339): same shape, different names. -/
def getClinicalColormap (colormapType : String) : Cmap :=
  if colormapType = "inferno" then .inferno
  else if colormapType = "jet" then .medicalJet
  else if colormapType = "viridis" then .viridis
  else .inferno

/-!  ## Retina region detection  -/

/-- One circle candidate from `cv2.HoughCircles`, tagged with the `param2`
vote threshold of the configuration that produced it. -/
structure HoughCand where
  x : ℤ
  y : ℤ
  r : ℤ
  p2 : ℚ
  deriving DecidableEq, Repr

/-- Candidate bound check (prediction.py 307-309): radius within range and
circle fully inside the image. -/
def inBoundsCand (w h minR maxR : ℤ) (c : HoughCand) : Bool :=
  decide (minR ≤ c.r ∧ c.r ≤ maxR ∧ 0 ≤ c.x - c.r ∧ c.x + c.r < w ∧
    0 ≤ c.y - c.r ∧ c.y + c.r < h)

/-- Centre-proximity score (prediction.py 326-328):
`max(0, 1 - dist(centre)/(0.3*min(w,h)))`. -/
noncomputable def centerScore (w h : ℤ) (c : HoughCand) : ℝ :=
  max 0 (1 - Real.sqrt (((c.x : ℝ) - (w : ℝ) / 2) ^ 2 + ((c.y : ℝ) - (h : ℝ) / 2) ^ 2)
    / ((min w h : ℤ) * (3/10 : ℝ)))

/-- Radius-proximity score (prediction.py 331):
`1 - |r - (minR+maxR)/2| / (maxR - minR)`. -/
noncomputable def sizeScore (minR maxR : ℤ) (c : HoughCand) : ℝ :=
  1 - |(c.r : ℝ) - ((minR : ℝ) + (maxR : ℝ)) / 2| / ((maxR : ℝ) - (minR : ℝ))

/-- Combined candidate score of `detect_retina_circular_mask`
(prediction.py 334-337): 0.4·centre + 0.3·size + 0.3·(param2/50). -/
noncomputable def candScore (w h minR maxR : ℤ) (c : HoughCand) : ℝ :=
  centerScore w h c * (4/10) + sizeScore minR maxR c * (3/10) +
    ((c.p2 : ℝ) / 50) * (3/10)

/-- Candidate score of `MedicalGradCAMEnhancer._create_retina_mask`
(gradcam_medical_enhanced.py 244-247): centre score without the `max 0`
clamp, weighted 0.6·centre + 0.4·size, no vote-strength term. -/
noncomputable def enhCandScore (w h minR maxR : ℤ) (c : HoughCand) : ℝ :=
  (1 - Real.sqrt (((c.x : ℝ) - ((w / 2 : ℤ) : ℝ)) ^ 2 + ((c.y : ℝ) - ((h / 2 : ℤ) : ℝ)) ^ 2)
    / ((min w h : ℤ) * (3/10 : ℝ))) * (6/10) + sizeScore minR maxR c * (4/10)

/-- The best-candidate selection loop (prediction.py 320-341):
`best_score` starts at -1, each candidate with a strictly greater score
replaces the incumbent. -/
noncomputable def selectBest (w h minR maxR : ℤ) (cands : List HoughCand) :
    Option HoughCand × ℝ :=
  cands.foldl
    (fun acc c =>
      if candScore w h minR maxR c > acc.2 then (some c, candScore w h minR maxR c)
      else acc)
    (none, -1)

/-- The detected retina region. -/
structure Region where
  cx : ℤ
  cy : ℤ
  radius : ℤ
  confidence : ℝ

/-- Source `detect_retina_circular_mask` region selection (prediction.py 260-345):
radius range `[int(0.3·m), int(0.48·m)]` for `m = min(w,h)`, bound-filter the
Hough candidates, pick the best-scoring one with confidence
`min(0.9, 1.2·score)`, or fall back to the image centre with radius
`int(0.4·m)` and confidence 0.3.  The Hough transform itself is external
(cv2); its candidate list is a parameter. -/
noncomputable def detectRetinaRegion (w h : ℤ) (cands : List HoughCand) :
    Region :=
  let m := min w h
  let minR := 3 * m / 10
  let maxR := 12 * m / 25
  let valid := cands.filter (inBoundsCand w h minR maxR)
  match selectBest w h minR maxR valid with
  | (some c, bs) => ⟨c.x, c.y, c.r, min (9/10) (bs * (12/10))⟩
  | (none, _) => ⟨w / 2, h / 2, 2 * m / 5, 3/10⟩

/-!  ## Export size verification  -/

/-- The fatal export error the spec prescribes for a size mismatch. -/
inductive ExportFault where
  | sizeInvariant (actual : ℕ × ℕ) (target : ℕ)
  deriving DecidableEq, Repr

/-- The final size verification of `generate_professional_medical_gradcam`
(prediction.py 859-866) and `generate_clinical_gradcam` (1341-1348): on a
mismatch the image is forcibly resized with `Image.resize((t,t))` and
processing continues; nothing is raised. -/
def sizeVerifyStep (s : ℕ × ℕ) (t : ℕ) : Except ExportFault (ℕ × ℕ) :=
  if s = (t, t) then .ok s else .ok (t, t)

/-- Modelled from the spec: the verification the claim describes, raising
`ExportSizeInvariantError` on a mismatch. -/
def specSizeVerify (s : ℕ × ℕ) (t : ℕ) : Except ExportFault (ℕ × ℕ) :=
  if s = (t, t) then .ok s else .error (.sizeInvariant s t)

/-- Size flow of the professional export (prediction.py 753-866): the input
heatmap of arbitrary native size is resized to `(t,t)` unless already there
(PASO 2); all intermediate stages preserve the size; the final verification
forcibly resizes on mismatch (PASO 9). -/
def professionalExportSize (inSz : ℕ × ℕ) (t : ℕ) : ℕ × ℕ :=
  let hires := if inSz = (t, t) then inSz else (t, t)
  if hires = (t, t) then hires else (t, t)

/-!  ## The enhanced pipeline's broken noise-elimination step  -/

/-- A raised Python exception (what escapes `enhance_gradcam_medical`). -/
inductive PyFault where
  /-- `AttributeError: module has no attribute ...` -/
  | attributeAbsent (moduleName attr : String)
  deriving DecidableEq, Repr

/-- The morphology constants the `cv2` module actually exposes
(OpenCV `MorphTypes`; external library surface, transcribed from the
OpenCV 4.x API). -/
def cv2MorphAttrs : List (String × ℕ) :=
  [("MORPH_ERODE", 0), ("MORPH_DILATE", 1), ("MORPH_OPEN", 2),
   ("MORPH_CLOSE", 3), ("MORPH_GRADIENT", 4), ("MORPH_TOPHAT", 5),
   ("MORPH_BLACKHAT", 6), ("MORPH_HITMISS", 7)]

/-- Python attribute lookup `cv2.<attr>` on the morphology constants:
an absent name raises `AttributeError`. -/
def cv2Attr (attr : String) : Except PyFault ℕ :=
  match cv2MorphAttrs.find? (fun p => p.1 == attr) with
  | some p => .ok p.2
  | none => .error (.attributeAbsent "cv2" attr)

/-- The 3×3 elliptical structuring element of
`cv2.getStructuringElement(cv2.MORPH_ELLIPSE, (3,3))` (a cross). -/
def se3 : Finset (ℤ × ℤ) := {(0, 0), (0, 1), (0, -1), (1, 0), (-1, 0)}

/-- Source `MedicalGradCAMEnhancer._eliminate_noise` (gradcam_medical_enhanced.py
302-319): soft threshold at 0.05, then `cv2.morphologyEx` invoked with the
attribute `cv2.MORPH_OPENING` — an attribute lookup that happens when the
call expression is evaluated, before any morphology runs. -/
noncomputable def eliminateNoiseE (v : Pix → ℝ) : Except PyFault (Pix → ℝ) :=
  (cv2Attr "MORPH_OPENING").bind fun _op =>
    .ok fun p =>
      u8ToReal (openingN se3 (by decide)
        (fun q => realToU8 (if v q < 5/100 then 0 else v q)) p)

/-!  ## Stage ordering (traced pipelines)  -/

/-- The five post-processing stages the spec names. -/
inductive Stage where
  | upscale
  | normalize
  | smooth
  | mask
  | denoise
  deriving DecidableEq, Repr

/-- A heatmap together with the trace of stages applied so far. -/
structure TracedMap where
  val : Pix → ℝ
  trace : List Stage

/-- Apply one stage and record it. -/
def stepT (s : Stage) (f : (Pix → ℝ) → Pix → ℝ) (t : TracedMap) : TracedMap :=
  ⟨f t.val, t.trace ++ [s]⟩

/-- The clinical post-processing of `get_gradcam_heatmap`
(prediction.py 1142-1199), with its externally-implemented stages (LANCZOS4
resize, percentile normalisation, bilateral filter) abstract, composed in
the source's order: PASO 1 upscale, PASO 2 normalise, PASO 3 bilateral
smooth, PASO 4-5 threshold + opening, PASO 6 feathered mask. -/
noncomputable def clinicalPipelineT (resizeF normF bilatF : (Pix → ℝ) → Pix → ℝ)
    (K : BlurKernel 2) (t : TracedMap) : TracedMap :=
  stepT .mask (fun v => applyRetinaMask v (clinicalMask K 512 512 20))
    (stepT .denoise clinicalDenoise
      (stepT .smooth bilatF
        (stepT .normalize normF
          (stepT .upscale resizeF t))))

/-- A heatmap in the enhanced pipeline: a value unless an exception has
propagated, plus the trace of stages invoked. -/
structure TracedE where
  val : Except PyFault (Pix → ℝ)
  trace : List Stage

/-- Invoke one enhanced-pipeline stage (it is invoked — and traced — even
if it then raises) and propagate exceptions. -/
def stepE (s : Stage) (f : (Pix → ℝ) → Except PyFault (Pix → ℝ))
    (t : TracedE) : TracedE :=
  ⟨t.val.bind f, t.trace ++ [s]⟩

/-- Source `MedicalGradCAMEnhancer.enhance_gradcam` STEPs 1-5
(gradcam_medical_enhanced.py 79-98), stages composed in the source's order:
STEP 1 robust normalisation, STEP 2 bicubic upscale, STEP 3 Gaussian
smooth, STEP 4 circular retina masking, STEP 5 noise elimination. -/
noncomputable def enhancedPipelineT (normF resizeF smoothF : (Pix → ℝ) → Pix → ℝ)
    (maskM : Pix → ℝ) (t : TracedE) : TracedE :=
  stepE .denoise eliminateNoiseE
    (stepE .mask (fun v => .ok (applyRetinaMask v maskM))
      (stepE .smooth (fun v => .ok (smoothF v))
        (stepE .upscale (fun v => .ok (resizeF v))
          (stepE .normalize (fun v => .ok (normF v)) t))))

/-- The caller's guard in `procesar_imagenes` (prediction.py 1424-1451):
`enhance_gradcam_medical` is run inside `try/except Exception`, and any
raised error leaves `enhanced_results = None`. -/
noncomputable def procesarEnhancedResults (normF resizeF smoothF : (Pix → ℝ) → Pix → ℝ)
    (maskM : Pix → ℝ) (m0 : Pix → ℝ) : Option (Pix → ℝ) :=
  match (enhancedPipelineT normF resizeF smoothF maskM ⟨.ok m0, []⟩).val with
  | .ok r => some r
  | .error _ => none

/-!  ## Helper lemmas  -/

theorem BlurKernel.nonneg {k : ℕ} (K : BlurKernel k) (d : ℤ) : 0 ≤ K.g d := by
  by_cases h : d.natAbs ≤ k
  · exact (K.pos d h).le
  · rw [K.supp d (by omega)]

theorem kerBox_weight_sum {k : ℕ} (K : BlurKernel k) :
    ∑ d in kerBox k, K.g d.1 * K.g d.2 = 1 := by
  rw [kerBox, Finset.sum_product]
  have h : ∀ x ∈ Finset.Icc (-(k : ℤ)) k,
      ∑ y in Finset.Icc (-(k : ℤ)) k, K.g x * K.g y = K.g x := by
    intro x _
    rw [← Finset.mul_sum, K.sumOne, mul_one]
  rw [Finset.sum_congr rfl h, K.sumOne]

theorem blur2_nonneg {k : ℕ} (K : BlurKernel k) (f : Pix → ℝ)
    (hf : ∀ q, 0 ≤ f q) (p : Pix) : 0 ≤ blur2 K f p := by
  refine Finset.sum_nonneg fun d _ => ?_
  exact mul_nonneg (mul_nonneg (K.nonneg d.1) (K.nonneg d.2)) (hf _)

theorem blur2_le {k : ℕ} (K : BlurKernel k) (f : Pix → ℝ) (M : ℝ)
    (hf : ∀ q, f q ≤ M) (hf0 : ∀ q, 0 ≤ f q) (p : Pix) :
    blur2 K f p ≤ M := by
  have hM : 0 ≤ M := le_trans (hf0 (p.1 - k, p.2)) (hf _)
  calc blur2 K f p ≤ ∑ d in kerBox k, K.g d.1 * K.g d.2 * M := by
        refine Finset.sum_le_sum fun d _ => ?_
        exact mul_le_mul_of_nonneg_left (hf _)
          (mul_nonneg (K.nonneg d.1) (K.nonneg d.2))
    _ = M := by rw [← Finset.sum_mul, kerBox_weight_sum, one_mul]

theorem blur2_eq_zero {k : ℕ} (K : BlurKernel k) (f : Pix → ℝ) (p : Pix)
    (hf : ∀ d ∈ kerBox k, f (p.1 + d.1, p.2 + d.2) = 0) :
    blur2 K f p = 0 := by
  refine Finset.sum_eq_zero fun d hd => ?_
  rw [hf d hd, mul_zero]

theorem sqDist_nonneg (p c : Pix) : 0 ≤ sqDist p c :=
  add_nonneg (sq_nonneg _) (sq_nonneg _)

theorem lt_distR_of_sq {p c : Pix} {a : ℤ}
    (h : a ^ 2 < sqDist p c) : (a : ℝ) < distR p c := by
  rw [distR]
  exact Real.lt_sqrt_of_sq_lt (by exact_mod_cast h)

theorem le_distR_of_sq {p c : Pix} {a : ℤ}
    (h : a ^ 2 ≤ sqDist p c) : (a : ℝ) ≤ distR p c := by
  rw [distR]
  exact Real.le_sqrt_of_sq_le (by exact_mod_cast h)

/-- Core inequality behind the mask-support argument (window radius 2):
with `S = ‖p-c‖²`, `t = ‖δ‖² ≤ 8` and `u = ⟨p-c, δ⟩`, a point farther than
`R+3` stays farther than `R` after the shift. -/
theorem sqGapCore8 (R S t u : ℤ) (hR : 0 ≤ R) (hS : (R + 3) ^ 2 < S)
    (ht : t ≤ 8) (ht0 : 0 ≤ t) (lag : u ^ 2 ≤ S * t)
    (hcon : S + 2 * u + t ≤ R ^ 2) : False := by
  have hX0 : 0 ≤ S + t - R ^ 2 := by nlinarith
  have hX : S + t - R ^ 2 ≤ -(2 * u) := by linarith
  have h1 : (S + t - R ^ 2) ^ 2 ≤ 4 * u ^ 2 := by
    nlinarith [mul_nonneg (by linarith : 0 ≤ -(2 * u) - (S + t - R ^ 2))
      (by linarith : 0 ≤ -(2 * u) + (S + t - R ^ 2))]
  have hid : (S - t - R ^ 2) ^ 2 =
      (S + t - R ^ 2) ^ 2 - 4 * (S * t) + 4 * t * R ^ 2 := by ring
  have h2 : (S - t - R ^ 2) ^ 2 ≤ 4 * t * R ^ 2 := by linarith
  have h3 : 6 * R + 2 ≤ S - t - R ^ 2 := by nlinarith
  have h4 : (6 * R + 2) ^ 2 ≤ (S - t - R ^ 2) ^ 2 := by
    nlinarith [mul_nonneg (by linarith : 0 ≤ (S - t - R ^ 2) - (6 * R + 2))
      (by linarith : 0 ≤ (S - t - R ^ 2) + (6 * R + 2))]
  have h5 : 4 * t * R ^ 2 ≤ 32 * R ^ 2 := by
    nlinarith [mul_nonneg (by linarith : (0 : ℤ) ≤ 8 - t) (sq_nonneg R)]
  nlinarith [h2, h4, h5, hR, sq_nonneg R]

/-- Same core inequality for a window of radius 3 (`t ≤ 18`), with safety
margin 5. -/
theorem sqGapCore18 (R S t u : ℤ) (hR : 0 ≤ R) (hS : (R + 5) ^ 2 < S)
    (ht : t ≤ 18) (ht0 : 0 ≤ t) (lag : u ^ 2 ≤ S * t)
    (hcon : S + 2 * u + t ≤ R ^ 2) : False := by
  have hX0 : 0 ≤ S + t - R ^ 2 := by nlinarith
  have hX : S + t - R ^ 2 ≤ -(2 * u) := by linarith
  have h1 : (S + t - R ^ 2) ^ 2 ≤ 4 * u ^ 2 := by
    nlinarith [mul_nonneg (by linarith : 0 ≤ -(2 * u) - (S + t - R ^ 2))
      (by linarith : 0 ≤ -(2 * u) + (S + t - R ^ 2))]
  have hid : (S - t - R ^ 2) ^ 2 =
      (S + t - R ^ 2) ^ 2 - 4 * (S * t) + 4 * t * R ^ 2 := by ring
  have h2 : (S - t - R ^ 2) ^ 2 ≤ 4 * t * R ^ 2 := by linarith
  have h3 : 10 * R + 8 ≤ S - t - R ^ 2 := by nlinarith
  have h4 : (10 * R + 8) ^ 2 ≤ (S - t - R ^ 2) ^ 2 := by
    nlinarith [mul_nonneg (by linarith : 0 ≤ (S - t - R ^ 2) - (10 * R + 8))
      (by linarith : 0 ≤ (S - t - R ^ 2) + (10 * R + 8))]
  have h5 : 4 * t * R ^ 2 ≤ 72 * R ^ 2 := by
    nlinarith [mul_nonneg (by linarith : (0 : ℤ) ≤ 18 - t) (sq_nonneg R)]
  nlinarith [h2, h4, h5, hR, sq_nonneg R]

/-- Moving at most `(e,f)` with `e²+f² ≤ 8` from a point strictly farther
than `R+3` from the centre keeps it strictly farther than `R`. -/
theorem sqGapArith8 (R a b e f : ℤ) (hR : 0 ≤ R)
    (hS : (R + 3) ^ 2 < a ^ 2 + b ^ 2) (ht : e ^ 2 + f ^ 2 ≤ 8) :
    R ^ 2 < (a + e) ^ 2 + (b + f) ^ 2 := by
  by_contra hcon
  push_neg at hcon
  refine sqGapCore8 R (a ^ 2 + b ^ 2) (e ^ 2 + f ^ 2) (a * e + b * f) hR hS ht
    (by positivity) ?_ ?_
  · nlinarith [sq_nonneg (a * f - b * e)]
  · nlinarith [hcon]

/-- Moving at most `(e,f)` with `e²+f² ≤ 18` from a point strictly farther
than `R+5` from the centre keeps it strictly farther than `R`. -/
theorem sqGapArith18 (R a b e f : ℤ) (hR : 0 ≤ R)
    (hS : (R + 5) ^ 2 < a ^ 2 + b ^ 2) (ht : e ^ 2 + f ^ 2 ≤ 18) :
    R ^ 2 < (a + e) ^ 2 + (b + f) ^ 2 := by
  by_contra hcon
  push_neg at hcon
  refine sqGapCore18 R (a ^ 2 + b ^ 2) (e ^ 2 + f ^ 2) (a * e + b * f) hR hS ht
    (by positivity) ?_ ?_
  · nlinarith [sq_nonneg (a * f - b * e)]
  · nlinarith [hcon]

theorem clinicalMaskRaw_nonneg (w h feather : ℤ) (hf : 0 < feather) (p : Pix) :
    0 ≤ clinicalMaskRaw w h feather p := by
  simp only [clinicalMaskRaw]
  split_ifs with h1 h2
  · exact le_refl 0
  · rw [not_lt] at h1
    have hfr : (0 : ℝ) < (feather : ℝ) := by exact_mod_cast hf
    rw [sub_nonneg, div_le_one hfr]
    have : ((21 * min w h / 50 - feather : ℤ) : ℝ) =
        ((21 * min w h / 50 : ℤ) : ℝ) - (feather : ℝ) := by push_cast; ring
    rw [this]
    linarith
  · norm_num

theorem clinicalMaskRaw_le_one (w h feather : ℤ) (hf : 0 < feather) (p : Pix) :
    clinicalMaskRaw w h feather p ≤ 1 := by
  simp only [clinicalMaskRaw]
  split_ifs with h1 h2
  · norm_num
  · have hfr : (0 : ℝ) < (feather : ℝ) := by exact_mod_cast hf
    have hdpos : 0 ≤ distR p (w / 2, h / 2) - ((21 * min w h / 50 - feather : ℤ) : ℝ) :=
      le_of_lt (sub_pos.2 h2)
    have := div_nonneg hdpos hfr.le
    linarith
  · exact le_refl 1

theorem clinicalMaskRaw_eq_zero (w h feather : ℤ) (p : Pix)
    (hd : (21 * min w h / 50) ^ 2 < sqDist p (w / 2, h / 2)) :
    clinicalMaskRaw w h feather p = 0 := by
  simp only [clinicalMaskRaw]
  rw [if_pos (lt_distR_of_sq hd)]

theorem clinicalMask_zero (K : BlurKernel 2) (w h feather : ℤ) (p : Pix)
    (hr0 : 0 ≤ 21 * min w h / 50)
    (hd : (21 * min w h / 50 + 3) ^ 2 < sqDist p (w / 2, h / 2)) :
    clinicalMask K w h feather p = 0 := by
  refine blur2_eq_zero K _ p fun d hdm => ?_
  rw [kerBox, Finset.mem_product, Finset.mem_Icc, Finset.mem_Icc] at hdm
  apply clinicalMaskRaw_eq_zero
  have hb1 : -2 ≤ d.1 ∧ d.1 ≤ 2 := by omega
  have hb2 : -2 ≤ d.2 ∧ d.2 ≤ 2 := by omega
  have ht : d.1 ^ 2 + d.2 ^ 2 ≤ 8 := by
    have h1 : d.1 ^ 2 ≤ 4 := by
      nlinarith [mul_nonneg (by linarith [hb1.1] : (0 : ℤ) ≤ d.1 + 2)
        (by linarith [hb1.2] : (0 : ℤ) ≤ 2 - d.1)]
    have h2 : d.2 ^ 2 ≤ 4 := by
      nlinarith [mul_nonneg (by linarith [hb2.1] : (0 : ℤ) ≤ d.2 + 2)
        (by linarith [hb2.2] : (0 : ℤ) ≤ 2 - d.2)]
    linarith
  have hgap := sqGapArith8 (21 * min w h / 50) (p.1 - w / 2) (p.2 - h / 2)
    d.1 d.2 hr0 (by simpa [sqDist] using hd) ht
  have heq : sqDist (p.1 + d.1, p.2 + d.2) (w / 2, h / 2) =
      (p.1 - w / 2 + d.1) ^ 2 + (p.2 - h / 2 + d.2) ^ 2 := by
    simp [sqDist]; ring
  rw [heq]
  exact hgap

theorem enhancedMaskRaw_nonneg (c : Pix) (radius : ℤ) (p : Pix) :
    0 ≤ enhancedMaskRaw c radius p := by
  simp only [enhancedMaskRaw]
  split_ifs with h1 h2
  · norm_num
  · exact le_refl 0
  · rw [not_le] at h1 h2
    have hden : (0 : ℝ) < ((radius + 20 : ℤ) : ℝ) - ((max 0 (radius - 20) : ℤ) : ℝ) := by
      linarith
    rw [sub_nonneg, div_le_one hden]
    linarith

theorem enhancedMaskRaw_le_one (c : Pix) (radius : ℤ) (p : Pix) :
    enhancedMaskRaw c radius p ≤ 1 := by
  simp only [enhancedMaskRaw]
  split_ifs with h1 h2
  · exact le_refl 1
  · norm_num
  · rw [not_le] at h1 h2
    have hden : (0 : ℝ) < ((radius + 20 : ℤ) : ℝ) - ((max 0 (radius - 20) : ℤ) : ℝ) := by
      linarith
    have hnum : 0 ≤ distR p c - ((max 0 (radius - 20) : ℤ) : ℝ) := by linarith
    have := div_nonneg hnum hden.le
    linarith

theorem enhancedMaskRaw_eq_zero (c : Pix) (radius : ℤ) (p : Pix)
    (hrad : 0 ≤ radius) (hd : (radius + 20) ^ 2 ≤ sqDist p c) :
    enhancedMaskRaw c radius p = 0 := by
  simp only [enhancedMaskRaw]
  have hout : ((radius + 20 : ℤ) : ℝ) ≤ distR p c := le_distR_of_sq hd
  have hio : ((max 0 (radius - 20) : ℤ) : ℝ) < ((radius + 20 : ℤ) : ℝ) := by
    exact_mod_cast (by omega : max 0 (radius - 20) < radius + 20)
  rw [if_neg (by push_neg; linarith), if_pos hout]

theorem enhancedMask_zero (K : BlurKernel 3) (c : Pix) (radius : ℤ) (p : Pix)
    (hrad : 0 ≤ radius) (hd : (radius + 25) ^ 2 < sqDist p c) :
    enhancedMask K c radius p = 0 := by
  refine blur2_eq_zero K _ p fun d hdm => ?_
  rw [kerBox, Finset.mem_product, Finset.mem_Icc, Finset.mem_Icc] at hdm
  apply enhancedMaskRaw_eq_zero c radius _ hrad
  have hb1 : -3 ≤ d.1 ∧ d.1 ≤ 3 := by omega
  have hb2 : -3 ≤ d.2 ∧ d.2 ≤ 3 := by omega
  have ht : d.1 ^ 2 + d.2 ^ 2 ≤ 18 := by
    have h1 : d.1 ^ 2 ≤ 9 := by
      nlinarith [mul_nonneg (by linarith [hb1.1] : (0 : ℤ) ≤ d.1 + 3)
        (by linarith [hb1.2] : (0 : ℤ) ≤ 3 - d.1)]
    have h2 : d.2 ^ 2 ≤ 9 := by
      nlinarith [mul_nonneg (by linarith [hb2.1] : (0 : ℤ) ≤ d.2 + 3)
        (by linarith [hb2.2] : (0 : ℤ) ≤ 3 - d.2)]
    linarith
  have hgap := sqGapArith18 (radius + 20) (p.1 - c.1) (p.2 - c.2) d.1 d.2
    (by omega) (by simpa [sqDist, show radius + 20 + 5 = radius + 25 by ring] using hd) ht
  have heq : sqDist (p.1 + d.1, p.2 + d.2) c =
      (p.1 - c.1 + d.1) ^ 2 + (p.2 - c.2 + d.2) ^ 2 := by
    simp [sqDist]; ring
  rw [heq]
  exact hgap.le

theorem erodeN_le (se : Finset (ℤ × ℤ)) (hse : se.Nonempty) (f : Pix → ℕ)
    (M : ℕ) (hf : ∀ q, f q ≤ M) (p : Pix) : erodeN se hse f p ≤ M := by
  obtain ⟨d0, hd0⟩ := hse
  exact le_trans (Finset.inf'_le _ hd0) (hf _)

theorem dilateN_le (se : Finset (ℤ × ℤ)) (hse : se.Nonempty) (f : Pix → ℕ)
    (M : ℕ) (hf : ∀ q, f q ≤ M) (p : Pix) : dilateN se hse f p ≤ M :=
  Finset.sup'_le _ _ fun _ _ => hf _

theorem openingN_le (se : Finset (ℤ × ℤ)) (hse : se.Nonempty) (f : Pix → ℕ)
    (M : ℕ) (hf : ∀ q, f q ≤ M) (p : Pix) : openingN se hse f p ≤ M :=
  dilateN_le se hse _ M (fun q => erodeN_le se hse f M hf q) p

theorem u8ToReal_nonneg (n : ℕ) : 0 ≤ u8ToReal n :=
  div_nonneg (Nat.cast_nonneg n) (by norm_num)

theorem u8ToReal_le_one (n : ℕ) (hn : n ≤ 255) : u8ToReal n ≤ 1 := by
  rw [u8ToReal, div_le_one (by norm_num : (0 : ℝ) < 255)]
  exact_mod_cast hn

theorem thresholdStep_mem (t x : ℝ) (h0 : 0 ≤ x) (h1 : x ≤ 1) :
    0 ≤ thresholdStep t x ∧ thresholdStep t x ≤ 1 := by
  rw [thresholdStep]
  split_ifs
  · exact ⟨le_refl 0, by norm_num⟩
  · exact ⟨h0, h1⟩

theorem realToU8_le (x : ℝ) (h1 : x ≤ 1) : realToU8 x ≤ 255 := by
  rw [realToU8]
  have hf : ⌊x * 255⌋ ≤ 255 := by
    have : x * 255 ≤ 255 := by nlinarith
    calc ⌊x * 255⌋ ≤ ⌊(255 : ℝ)⌋ := Int.floor_le_floor this
      _ = 255 := by norm_num
  omega

theorem clinicalDenoise_mem (v : Pix → ℝ) (hv : ∀ q, 0 ≤ v q ∧ v q ≤ 1)
    (p : Pix) : 0 ≤ clinicalDenoise v p ∧ clinicalDenoise v p ≤ 1 := by
  rw [clinicalDenoise]
  constructor
  · exact u8ToReal_nonneg _
  · refine u8ToReal_le_one _ ?_
    refine openingN_le _ _ _ 255 (fun q => ?_) p
    exact realToU8_le _ (thresholdStep_mem _ _ (hv q).1 (hv q).2).2

theorem clinicalMask_mem (K : BlurKernel 2) (w h feather : ℤ)
    (hf : 0 < feather) (p : Pix) :
    0 ≤ clinicalMask K w h feather p ∧ clinicalMask K w h feather p ≤ 1 :=
  ⟨blur2_nonneg K _ (clinicalMaskRaw_nonneg w h feather hf) p,
   blur2_le K _ 1 (clinicalMaskRaw_le_one w h feather hf)
     (clinicalMaskRaw_nonneg w h feather hf) p⟩

theorem alphaPre_mem (hp : Pix → ℝ) (p : Pix) :
    0 ≤ alphaPre hp p ∧ alphaPre hp p ≤ 85/100 := by
  rw [alphaPre]
  split_ifs
  · exact ⟨le_min (by norm_num) (le_max_left 0 _), min_le_left _ _⟩
  · exact ⟨le_refl 0, by norm_num⟩

theorem alphaChannel_mem (K : BlurKernel 1) (hp : Pix → ℝ) (p : Pix) :
    0 ≤ alphaChannel K hp p ∧ alphaChannel K hp p ≤ 85/100 :=
  ⟨blur2_nonneg K _ (fun q => (alphaPre_mem hp q).1) p,
   blur2_le K _ (85/100) (fun q => (alphaPre_mem hp q).2)
     (fun q => (alphaPre_mem hp q).1) p⟩

/-!  ## Claim C4  -/

/-- C4 counterexample: on a perfectly uniform map (every value 1/2) the two
normalisations in the source disagree.  `_robust_normalize` follows the
claim (degenerate `p_high ≤ p_low` becomes `p_low + 1e-8`, yielding the
all-zero output), but the inline normalisation of the clinical path
(prediction.py 1155-1158) returns the array unchanged, so the claimed
degenerate handling does not hold on that path. -/
theorem inline_normalize_degenerate_cex :
    inlineNormalize [1/2, 1/2] = [1/2, 1/2] ∧
    robustNormalize [1/2, 1/2] (1/2) (199/2) = [0, 0] ∧
    inlineNormalize [1/2, 1/2] ≠ robustNormalize [1/2, 1/2] (1/2) (199/2) := by
  have h1 : inlineNormalize [1/2, 1/2] = [1/2, 1/2] := by
    norm_num [inlineNormalize, npPercentile, sortAsc, insertAsc]
  have h2 : robustNormalize [1/2, 1/2] (1/2) (199/2) = [0, 0] := by
    norm_num [robustNormalize, npPercentile, sortAsc, insertAsc, clipQ,
      List.filter]
  refine ⟨h1, h2, ?_⟩
  rw [h1, h2]
  norm_num

/-- Denominator of the `_robust_normalize` rescale is positive after the
degenerate-case adjustment. -/
theorem robustDenomBody_pos (plo phi0 : ℚ) :
    0 < (if phi0 ≤ plo then plo + 1/100000000 else phi0) - plo := by
  split_ifs with h
  · linarith
  · linarith [not_le.mp h]

/-- Each rescaled value of `_robust_normalize` lies in [0,1]. -/
theorem robustBody_mem (plo phi0 x : ℚ) :
    0 ≤ (clipQ plo (if phi0 ≤ plo then plo + 1/100000000 else phi0) x - plo) /
        ((if phi0 ≤ plo then plo + 1/100000000 else phi0) - plo) ∧
    (clipQ plo (if phi0 ≤ plo then plo + 1/100000000 else phi0) x - plo) /
        ((if phi0 ≤ plo then plo + 1/100000000 else phi0) - plo) ≤ 1 := by
  have hlt := robustDenomBody_pos plo phi0
  set phi := if phi0 ≤ plo then plo + 1/100000000 else phi0 with hphi
  have hclo : plo ≤ clipQ plo phi x := le_min (by linarith) (le_max_left _ _)
  have hchi : clipQ plo phi x ≤ phi := min_le_left _ _
  constructor
  · exact div_nonneg (by linarith) (by linarith)
  · rw [div_le_one (by linarith)]
    linarith

/-- C4 (amended): `_robust_normalize` computes percentiles over values
above 1e-6 when any exist, replaces a degenerate `p_high ≤ p_low` by
`p_low + 1e-8`, so its denominator is always positive (it never divides by
zero) and every output value lies in [0,1]; the inline normalisation of
`get_gradcam_heatmap` instead takes its percentiles over all values and, in
the degenerate case, returns the upscaled map unchanged (also without
dividing by zero). -/
theorem robust_normalize_amended (xs : List ℚ) (pLow pHigh : ℚ) :
    0 < robustDenom xs pLow pHigh ∧
    (∀ y ∈ robustNormalize xs pLow pHigh, 0 ≤ y ∧ y ≤ 1) ∧
    (npPercentile xs (995/10) ≤ npPercentile xs (1/2) →
      inlineNormalize xs = xs) := by
  refine ⟨?_, ?_, ?_⟩
  · simp only [robustDenom]
    exact robustDenomBody_pos _ _
  · intro y hy
    simp only [robustNormalize] at hy
    obtain ⟨x, _, rfl⟩ := List.mem_map.1 hy
    exact robustBody_mem _ _ x
  · intro hle
    rw [inlineNormalize]
    exact if_neg (not_lt.2 hle)

/-- Witness for C4's amended theorem at the concrete array `[1]`. -/
theorem robust_normalize_amended_witness :
    0 < robustDenom [1] (1/2) (199/2) ∧ inlineNormalize [(1 : ℚ)] = [1] :=
  ⟨(robust_normalize_amended [1] (1/2) (199/2)).1,
   (robust_normalize_amended [1] (1/2) (199/2)).2.2
     (by norm_num [npPercentile, sortAsc, insertAsc])⟩

/-!  ## Claim C5  -/

/-- C5 counterexample: at a mismatched size (100×100 vs target 512) the
source's verification step forcibly resizes and returns normally, instead
of raising the `ExportSizeInvariantError` the claim prescribes (modelled by
`specSizeVerify`). -/
theorem export_size_verify_cex :
    sizeVerifyStep (100, 100) 512 = .ok (512, 512) ∧
    specSizeVerify (100, 100) 512 = .error (.sizeInvariant (100, 100) 512) ∧
    sizeVerifyStep (100, 100) 512 ≠ specSizeVerify (100, 100) 512 := by
  refine ⟨rfl, rfl, ?_⟩
  simp [sizeVerifyStep, specSizeVerify]

/-- C5 (amended): export always yields images of exactly `target × target`
pixels regardless of the raw map's native resolution, but on a size
mismatch it forcibly resizes (logging an error) and continues; the
verification step never fails. -/
theorem export_size_amended (s : ℕ × ℕ) (t : ℕ) :
    professionalExportSize s t = (t, t) ∧ (sizeVerifyStep s t).isOk = true := by
  constructor
  · rw [professionalExportSize]
    split_ifs with h1 <;> simp_all
  · rw [sizeVerifyStep]
    split_ifs <;> rfl

/-!  ## Claim C6  -/

/-- C6 counterexample: `create_medical_colormap` silently substitutes the
inferno colormap both for the name `"viridis"` (which the claim lists as
supported — the code only knows `"viridis_medical"`) and for a wholly
unknown name, instead of failing with `UnknownPaletteError`. -/
theorem palette_fallback_cex :
    createMedicalColormap "viridis" = Cmap.inferno ∧
    createMedicalColormap "plasma" = Cmap.inferno ∧
    getClinicalColormap "plasma" = Cmap.inferno := by
  refine ⟨?_, ?_, ?_⟩ <;> decide

/-- C6 (amended): every palette name outside each dispatcher's supported
set is silently mapped to the inferno colormap; no error is raised and no
`UnknownPaletteError` exists in the code. -/
theorem palette_fallback_amended (s : String) :
    (s ≠ "inferno" → s ≠ "jet_medical" → s ≠ "viridis_medical" →
      createMedicalColormap s = Cmap.inferno) ∧
    (s ≠ "inferno" → s ≠ "jet" → s ≠ "viridis" →
      getClinicalColormap s = Cmap.inferno) := by
  constructor <;> intro h1 h2 h3 <;>
    simp [createMedicalColormap, getClinicalColormap, h1, h2, h3]

/-- Witness for C6's amended theorem at the concrete name `"magma"`. -/
theorem palette_fallback_amended_witness :
    createMedicalColormap "magma" = Cmap.inferno ∧
    getClinicalColormap "magma" = Cmap.inferno :=
  ⟨(palette_fallback_amended "magma").1 (by decide) (by decide) (by decide),
   (palette_fallback_amended "magma").2 (by decide) (by decide) (by decide)⟩

/-!  ## Claim C8  -/

/-- C8 counterexample: at a pixel with original 200, palette colour 100 and
processed saliency 0.5 (above the 2 % threshold) the clinical export blends
with the constant factor 0.35 and produces 165, while the claimed formula
`blend = alpha_overlay × saliency_value` would produce 182.5. -/
theorem overlay_blend_cex :
    clinicalOverlayPix 200 100 (1/2) = 165 ∧
    specOverlayPix 200 100 (1/2) (2/100) = 365/2 ∧
    clinicalOverlayPix 200 100 (1/2) ≠ specOverlayPix 200 100 (1/2) (2/100) := by
  have h1 : clinicalOverlayPix 200 100 (1/2) = 165 := by
    rw [clinicalOverlayPix, if_pos (by norm_num : (1/2 : ℝ) > 2/100)]
    norm_num
  have h2 : specOverlayPix 200 100 (1/2) (2/100) = 365/2 := by
    rw [specOverlayPix, if_pos (by norm_num : (1/2 : ℝ) > 2/100)]
    norm_num
  exact ⟨h1, h2, by rw [h1, h2]; norm_num⟩

/-- C8 (amended): the clinical export blends with the CONSTANT factor
`alpha_overlay = 0.35` at pixels whose processed saliency exceeds the 2 %
threshold and leaves every other pixel exactly equal to the original; the
enhanced module's `_create_overlays` is the path that uses the claimed
per-pixel factor `alpha_overlay × saliency × mask` (at every pixel, with
zero blend reproducing the original exactly); both overlays are computed in
floating point and clipped to [0,255]. -/
theorem overlay_blend_amended (orig heat hp o01 h01 m : ℝ) :
    (0 ≤ orig → orig ≤ 255 → hp ≤ 2/100 → clinicalOverlayPix orig heat hp = orig) ∧
    (0 ≤ clinicalOverlayPix orig heat hp ∧ clinicalOverlayPix orig heat hp ≤ 255) ∧
    (0 ≤ o01 → o01 ≤ 1 → hp * m = 0 →
      enhancedOverlayPix o01 h01 hp m = o01 * 255) ∧
    (0 ≤ enhancedOverlayPix o01 h01 hp m ∧ enhancedOverlayPix o01 h01 hp m ≤ 255) := by
  refine ⟨?_, ⟨?_, ?_⟩, ?_, ⟨?_, ?_⟩⟩
  · intro h0 h255 hthr
    rw [clinicalOverlayPix, if_neg (not_lt.2 hthr), max_eq_right h0,
      min_eq_right h255]
  · exact le_min (by norm_num) (le_max_left 0 _)
  · exact min_le_left _ _
  · intro h0 h1 hz
    rw [enhancedOverlayPix, hz]
    rw [show ((1 - 0 * (35/100)) * o01 + 0 * (35/100) * h01) * 255 = o01 * 255 by ring]
    rw [max_eq_right (by nlinarith), min_eq_right (by nlinarith)]
  · exact le_min (by norm_num) (le_max_left 0 _)
  · exact min_le_left _ _

/-- Witness for C8's amended theorem at concrete pixel values. -/
theorem overlay_blend_amended_witness :
    clinicalOverlayPix 100 0 0 = 100 ∧
    enhancedOverlayPix (1/2) 0 0 1 = (1/2) * 255 ∧
    0 ≤ clinicalOverlayPix 100 0 0 :=
  ⟨(overlay_blend_amended 100 0 0 (1/2) 0 1).1 (by norm_num) (by norm_num)
     (by norm_num),
   (overlay_blend_amended 100 0 0 (1/2) 0 1).2.2.1 (by norm_num) (by norm_num)
     (by norm_num),
   (overlay_blend_amended 100 0 0 (1/2) 0 1).2.1.1⟩

/-!  ## Claim C10  -/

/-- C10: `_eliminate_noise` always raises — the call
`cv2.morphologyEx(..., cv2.MORPH_OPENING, ...)` evaluates the attribute
`cv2.MORPH_OPENING`, which does not exist in OpenCV (`MORPH_OPEN` does), so
the lookup raises `AttributeError` on every input; consequently
`enhance_gradcam_medical` never returns successfully, and the caller in
`procesar_imagenes` catches the exception and always leaves
`enhanced_results = None`, falling back to the non-enhanced export path. -/
theorem enhanced_noise_always_raises
    (v : Pix → ℝ) (normF resizeF smoothF : (Pix → ℝ) → Pix → ℝ)
    (maskM m0 : Pix → ℝ) :
    eliminateNoiseE v = .error (.attributeAbsent "cv2" "MORPH_OPENING") ∧
    (enhancedPipelineT normF resizeF smoothF maskM ⟨.ok m0, []⟩).val =
      .error (.attributeAbsent "cv2" "MORPH_OPENING") ∧
    procesarEnhancedResults normF resizeF smoothF maskM m0 = none := by
  have hE : ∀ u : Pix → ℝ,
      eliminateNoiseE u = .error (.attributeAbsent "cv2" "MORPH_OPENING") := by
    intro u
    rfl
  have hval : (enhancedPipelineT normF resizeF smoothF maskM ⟨.ok m0, []⟩).val =
      .error (.attributeAbsent "cv2" "MORPH_OPENING") := rfl
  refine ⟨hE v, hval, ?_⟩
  rw [procesarEnhancedResults, hval]

/-!  ## Claim C1  -/

/-- C1 counterexample: the clinical path of `get_gradcam_heatmap` does NOT
apply the stages in the claimed order upscale → normalize → smooth → mask →
denoise: it masks last, after the threshold/opening denoise step. -/
theorem pipeline_order_cex :
    (clinicalPipelineT id id id K5 ⟨fun _ => 0, []⟩).trace ≠
      [Stage.upscale, Stage.normalize, Stage.smooth, Stage.mask, Stage.denoise] := by
  simp only [clinicalPipelineT, stepT]
  decide

/-- C1 (amended): the clinical path applies upscale → percentile
normalization → (bilateral) smooth → threshold/opening denoise → feathered
mask, i.e. the claimed order with the last two stages swapped; the enhanced
pipeline applies normalize → upscale → smooth → mask → denoise, i.e. the
claimed order with the first two stages swapped.  Each path's composition
order is fixed (no code path reorders dynamically), but neither matches the
claimed order. -/
theorem pipeline_order_amended
    (resizeF normF bilatF : (Pix → ℝ) → Pix → ℝ) (K : BlurKernel 2)
    (t : TracedMap) (normE resizeE smoothE : (Pix → ℝ) → Pix → ℝ)
    (maskM : Pix → ℝ) (tE : TracedE) :
    (clinicalPipelineT resizeF normF bilatF K t).trace =
      t.trace ++ [Stage.upscale, Stage.normalize, Stage.smooth,
        Stage.denoise, Stage.mask] ∧
    (enhancedPipelineT normE resizeE smoothE maskM tE).trace =
      tE.trace ++ [Stage.normalize, Stage.upscale, Stage.smooth,
        Stage.mask, Stage.denoise] := by
  constructor <;> simp [clinicalPipelineT, enhancedPipelineT, stepT, stepE]

/-!  ## Claim C3  -/

/-- C3: for every valid input, every value of the clinical
`ProcessedSaliencyMap` lies in [0,1], and every alpha value of the
colorized export lies in [0, alpha_max] with `alpha_max = 0.85`, including
after the Gaussian blur applied to the alpha channel.  The bilateral filter
is modelled as an arbitrary uint8 image `b` (values ≤ 255), and the mask
blur as an arbitrary radius-2 Gaussian kernel. -/
theorem range_invariant_c3 (b : Pix → ℕ) (hb : ∀ q, b q ≤ 255)
    (K : BlurKernel 2) (K1 : BlurKernel 1) (hp : Pix → ℝ) (p : Pix) :
    (0 ≤ clinicalProcessed b K p ∧ clinicalProcessed b K p ≤ 1) ∧
    (0 ≤ alphaChannel K1 hp p ∧ alphaChannel K1 hp p ≤ 85/100) := by
  refine ⟨?_, alphaChannel_mem K1 hp p⟩
  have hden := clinicalDenoise_mem (fun q => u8ToReal (b q))
    (fun q => ⟨u8ToReal_nonneg _, u8ToReal_le_one _ (hb q)⟩) p
  have hmask := clinicalMask_mem K 512 512 20 (by norm_num) p
  rw [clinicalProcessed, applyRetinaMask]
  exact ⟨mul_nonneg hden.1 hmask.1, mul_le_one₀ hden.2 hmask.1 hmask.2⟩

/-- Witness for C3 at the all-zero uint8 image and the binomial kernels. -/
theorem range_invariant_c3_witness :
    (0 ≤ clinicalProcessed (fun _ => 0) K5 (0, 0) ∧
      clinicalProcessed (fun _ => 0) K5 (0, 0) ≤ 1) ∧
    (0 ≤ alphaChannel K3 (fun _ => 0) (0, 0) ∧
      alphaChannel K3 (fun _ => 0) (0, 0) ≤ 85/100) :=
  range_invariant_c3 (fun _ => 0) (fun _ => by norm_num) K5 K3 (fun _ => 0) (0, 0)

/-!  ## Claim C7  -/

/-- C7: an all-zero raw saliency map (array maximum exactly 0) makes the
extractor return the all-zero map instead of dividing by zero, and this
propagates through the export path: the resized map is all zero, the
blurred alpha channel is identically zero (fully transparent), and the
flattened overlay equals the original image exactly; every step is a total
function (nothing raises). -/
theorem zero_map_propagation_c7 (g : Finset Pix) (hg : g.Nonempty)
    (f : Pix → ℝ) (hf : ∀ q ∈ g, f q = 0) (W : Pix → Pix → ℝ)
    (g2 : Finset Pix) (K1 : BlurKernel 1) (orig heat : ℝ) (p r : Pix) :
    gradcamFinalize g hg f p = 0 ∧
    resizeLin W g2 (gradcamFinalize g hg f) r = 0 ∧
    alphaChannel K1 (resizeLin W g2 (gradcamFinalize g hg f)) r = 0 ∧
    (0 ≤ orig → orig ≤ 255 →
      clinicalOverlayPix orig heat (resizeLin W g2 (gradcamFinalize g hg f) r) = orig) := by
  have hz : gradcamFinalize g hg f = fun _ => 0 := by
    rw [gradcamFinalize]
    have hsup : g.sup' hg (reluMap f) = 0 := by
      apply le_antisymm
      · refine Finset.sup'_le _ _ fun q hq => ?_
        rw [reluMap, hf q hq]
        norm_num
      · obtain ⟨q, hq⟩ := hg
        refine le_trans ?_ (Finset.le_sup' (reluMap f) hq)
        rw [reluMap, hf q hq]
        norm_num
    rw [hsup]
    simp
  have hres : resizeLin W g2 (gradcamFinalize g hg f) = fun _ => 0 := by
    funext q
    rw [hz]
    simp [resizeLin]
  have halpha : alphaChannel K1 (resizeLin W g2 (gradcamFinalize g hg f)) r = 0 := by
    rw [hres]
    have : alphaPre (fun _ => (0 : ℝ)) = fun _ => 0 := by
      funext q
      rw [alphaPre, if_neg (by norm_num)]
    rw [alphaChannel, this]
    simp [blur2]
  refine ⟨by rw [hz], by rw [hres], halpha, ?_⟩
  intro h0 h255
  rw [hres]
  rw [clinicalOverlayPix, if_neg (by norm_num), max_eq_right h0, min_eq_right h255]

/-- Witness for C7 at a concrete singleton grid and zero map. -/
theorem zero_map_propagation_c7_witness :
    gradcamFinalize {((0 : ℤ), (0 : ℤ))} ⟨(0, 0), Finset.mem_singleton_self _⟩
      (fun _ => 0) (5, 5) = 0 ∧
    clinicalOverlayPix 7 3
      (resizeLin (fun _ _ => 0) {((0 : ℤ), (0 : ℤ))}
        (gradcamFinalize {((0 : ℤ), (0 : ℤ))}
          ⟨(0, 0), Finset.mem_singleton_self _⟩ (fun _ => 0)) (1, 1)) = 7 :=
  ⟨(zero_map_propagation_c7 {((0 : ℤ), (0 : ℤ))}
      ⟨(0, 0), Finset.mem_singleton_self _⟩ (fun _ => 0) (fun _ _ => rfl)
      (fun _ _ => 0) {((0 : ℤ), (0 : ℤ))} K3 7 3 (5, 5) (1, 1)).1,
   (zero_map_propagation_c7 {((0 : ℤ), (0 : ℤ))}
      ⟨(0, 0), Finset.mem_singleton_self _⟩ (fun _ => 0) (fun _ _ => rfl)
      (fun _ _ => 0) {((0 : ℤ), (0 : ℤ))} K3 7 3 (5, 5) (1, 1)).2.2.2
      (by norm_num) (by norm_num)⟩

/-!  ## Claim C2  -/

/-- The raw enhanced mask at a pixel on the axis, 233 px from the centre,
inside the feather band of a radius-215 region: value 1/20. -/
theorem enhancedMaskRaw_at_233 :
    enhancedMaskRaw (256, 256) 215 (489, 256) = 1/20 := by
  have hdist : distR (489, 256) (256, 256) = 233 := by
    rw [distR, show sqDist (489, 256) (256, 256) = 54289 by decide]
    rw [show ((54289 : ℤ) : ℝ) = 233 ^ 2 by norm_num]
    exact Real.sqrt_sq (by norm_num)
  simp only [enhancedMaskRaw, hdist]
  rw [if_neg (by norm_num [show max (0 : ℤ) (215 - 20) = 195 by decide]),
    if_neg (by norm_num)]
  norm_num [show max (0 : ℤ) (215 - 20) = 195 by decide]

/-- C2 counterexample: the enhanced module's mask is NOT exactly zero
beyond `radius + feather`.  For the detected region centred at (256,256)
with radius 215 (feather 20, so r+f = 235), the pixel (492,256) lies at
distance 236 > 235, yet after the mask's own Gaussian blur
(`cv2.GaussianBlur(mask, (7,7), 2.5)`, here the binomial radius-3 kernel)
the masked saliency map is strictly positive there. -/
theorem mask_feather_cex :
    (235 : ℤ) ^ 2 < sqDist (492, 256) (256, 256) ∧
    0 < applyRetinaMask (fun _ => 1) (enhancedMask K7 (256, 256) 215) (492, 256) := by
  constructor
  · decide
  · rw [applyRetinaMask]
    rw [one_mul]
    rw [enhancedMask, blur2]
    have hnn : ∀ d ∈ kerBox 3,
        0 ≤ K7.g d.1 * K7.g d.2 *
          enhancedMaskRaw (256, 256) 215 ((492 : ℤ) + d.1, (256 : ℤ) + d.2) :=
      fun d _ => mul_nonneg (mul_nonneg (K7.nonneg _) (K7.nonneg _))
        (enhancedMaskRaw_nonneg _ _ _)
    have hmem : ((-3 : ℤ), (0 : ℤ)) ∈ kerBox 3 := by decide
    have hterm : 0 < K7.g (-3) * K7.g 0 *
        enhancedMaskRaw (256, 256) 215 ((492 : ℤ) + (-3), (256 : ℤ) + 0) := by
      rw [show ((492 : ℤ) + (-3), (256 : ℤ) + 0) = ((489 : ℤ), (256 : ℤ)) by decide]
      rw [enhancedMaskRaw_at_233]
      have hg1 : 0 < K7.g (-3) := K7.pos _ (by decide)
      have hg2 : 0 < K7.g 0 := K7.pos _ (by decide)
      positivity
    calc (0 : ℝ) < K7.g (-3) * K7.g 0 *
          enhancedMaskRaw (256, 256) 215 ((492 : ℤ) + (-3), (256 : ℤ) + 0) := hterm
      _ ≤ ∑ d in kerBox 3, K7.g d.1 * K7.g d.2 *
          enhancedMaskRaw (256, 256) 215 ((492 : ℤ) + d.1, (256 : ℤ) + d.2) :=
        Finset.single_le_sum hnn hmem

/-- C2 (amended): the masking invariant holds exactly on the clinical path
— `apply_clinical_retinal_mask` uses the fixed image centre `(w//2, h//2)`
and radius `int(0.42·min(w,h))` (not the detected region), its raw mask is
already zero beyond that radius, and its 5×5 blur spreads at most 3 px, so
every pixel farther than radius + feather (feather = 20) is exactly zero.
On the enhanced path the mask's feather band extends to `radius + 20` and
its 7×7 blur spreads a further ≤ 5 px, so exact zero is only guaranteed
beyond `radius + 25`. -/
theorem mask_feather_amended (Ka : BlurKernel 2) (Kb : BlurKernel 3)
    (w h : ℤ) (hm : 0 ≤ 21 * min w h / 50) (heat : Pix → ℝ) (c : Pix)
    (radius : ℤ) (hrad : 0 ≤ radius) (p q : Pix) :
    ((21 * min w h / 50 + 20) ^ 2 < sqDist p (w / 2, h / 2) →
      applyRetinaMask heat (clinicalMask Ka w h 20) p = 0) ∧
    ((radius + 25) ^ 2 < sqDist q c →
      applyRetinaMask heat (enhancedMask Kb c radius) q = 0) := by
  constructor
  · intro hd
    have hstep : (21 * min w h / 50 + 3) ^ 2 < sqDist p (w / 2, h / 2) := by
      nlinarith [hm, hd]
    rw [applyRetinaMask, clinicalMask_zero Ka w h 20 p hm hstep, mul_zero]
  · intro hd
    rw [applyRetinaMask, enhancedMask_zero Kb c radius q hrad hd, mul_zero]

/-- Witness for C2's amended theorem: 512×512 geometry, pixel (500,256) at
distance 244 from the centre, beyond both bounds. -/
theorem mask_feather_amended_witness :
    applyRetinaMask (fun _ => 1) (clinicalMask K5 512 512 20) (500, 256) = 0 ∧
    applyRetinaMask (fun _ => 1) (enhancedMask K7 (256, 256) 215) (500, 256) = 0 :=
  ⟨(mask_feather_amended K5 K7 512 512 (by decide) (fun _ => 1) (256, 256) 215
      (by decide) (500, 256) (500, 256)).1 (by decide),
   (mask_feather_amended K5 K7 512 512 (by decide) (fun _ => 1) (256, 256) 215
      (by decide) (500, 256) (500, 256)).2 (by decide)⟩

/-!  ## Claim C9  -/

theorem selectFold_acc_le (w h minR maxR : ℤ) (l : List HoughCand) :
    ∀ acc : Option HoughCand × ℝ,
      acc.2 ≤ (l.foldl (fun acc c =>
        if candScore w h minR maxR c > acc.2 then
          (some c, candScore w h minR maxR c) else acc) acc).2 := by
  induction l with
  | nil => intro acc; exact le_refl _
  | cons c cs ih =>
    intro acc
    rw [List.foldl_cons]
    refine le_trans ?_ (ih _)
    by_cases hc : candScore w h minR maxR c > acc.2
    · rw [if_pos hc]
      exact hc.le
    · rw [if_neg hc]

theorem selectFold_mem_le (w h minR maxR : ℤ) (l : List HoughCand) :
    ∀ (acc : Option HoughCand × ℝ) (c : HoughCand), c ∈ l →
      candScore w h minR maxR c ≤ (l.foldl (fun acc c =>
        if candScore w h minR maxR c > acc.2 then
          (some c, candScore w h minR maxR c) else acc) acc).2 := by
  induction l with
  | nil => intro acc c hc; exact absurd hc (List.not_mem_nil c)
  | cons d ds ih =>
    intro acc c hc
    rw [List.foldl_cons]
    rcases List.mem_cons.1 hc with rfl | hmem
    · refine le_trans ?_ (selectFold_acc_le w h minR maxR ds _)
      by_cases hh : candScore w h minR maxR c > acc.2
      · rw [if_pos hh]
      · rw [if_neg hh]
        exact not_lt.1 hh
    · exact ih _ c hmem

/-- C9 counterexample: the two detectors do not score candidates the same
way.  For the in-bounds candidate (x=300, y=256, r=200, param2=30) on a
512×512 image (radius range [153,245]), `_create_retina_mask`'s score
(0.6·centre + 0.4·size, no vote-strength term) differs from the claimed
0.4·centre + 0.3·size + 0.3·(param2/50) that
`detect_retina_circular_mask` uses. -/
theorem detector_scoring_cex :
    enhCandScore 512 512 153 245 ⟨300, 256, 200, 30⟩ ≠
      candScore 512 512 153 245 ⟨300, 256, 200, 30⟩ := by
  have h44 : Real.sqrt (1936 : ℝ) = 44 := by
    rw [show (1936 : ℝ) = 44 ^ 2 by norm_num]
    exact Real.sqrt_sq (by norm_num)
  simp only [enhCandScore, candScore, centerScore, sizeScore]
  norm_num
  rw [h44]
  norm_num [max_def, abs_of_nonneg]

/-- C9 (amended): `detect_retina_circular_mask` never throws (it is a total
selection over the Hough candidates): when no candidate satisfies the
bounds the result is exactly the fallback
`{centre (w//2, h//2), radius int(0.4·min(w,h)), confidence 0.3}`; when
candidates survive, the chosen one maximises the score
0.4·centre-proximity + 0.3·radius-proximity + 0.3·(param2/50) and the
confidence is `min(0.9, 1.2·best_score)`.  The enhanced module's detector
uses different weights (0.6/0.4, no vote term) but the same fallback. -/
theorem retina_detector_amended (w h : ℤ) (cands : List HoughCand) :
    (cands.filter (inBoundsCand w h (3 * min w h / 10) (12 * min w h / 25)) = [] →
      detectRetinaRegion w h cands = ⟨w / 2, h / 2, 2 * min w h / 5, 3/10⟩) ∧
    (∀ c ∈ cands.filter (inBoundsCand w h (3 * min w h / 10) (12 * min w h / 25)),
      candScore w h (3 * min w h / 10) (12 * min w h / 25) c ≤
        (selectBest w h (3 * min w h / 10) (12 * min w h / 25)
          (cands.filter (inBoundsCand w h (3 * min w h / 10) (12 * min w h / 25)))).2) ∧
    (∀ (c : HoughCand) (bs : ℝ),
      selectBest w h (3 * min w h / 10) (12 * min w h / 25)
          (cands.filter (inBoundsCand w h (3 * min w h / 10) (12 * min w h / 25))) =
        (some c, bs) →
      detectRetinaRegion w h cands = ⟨c.x, c.y, c.r, min (9/10) (bs * (12/10))⟩) := by
  refine ⟨?_, ?_, ?_⟩
  · intro hempty
    simp only [detectRetinaRegion]
    rw [hempty]
    rfl
  · intro c hc
    simp only [selectBest]
    exact selectFold_mem_le w h _ _ _ _ c hc
  · intro c bs hsel
    simp only [detectRetinaRegion]
    rw [hsel]

/-- Witness for C9's amended theorem: an empty candidate list on a 512×512
image falls back to centre (256,256), radius 204, confidence 0.3. -/
theorem retina_detector_amended_witness :
    detectRetinaRegion 512 512 [] = ⟨256, 256, 204, 3/10⟩ := by
  have h := (retina_detector_amended 512 512 []).1 (by rfl)
  rw [h]
  norm_num
